import Mathlib

/-!
Verification of the deduplicated file-storage core of `app/main.py` and
`app/models.py`: content-addressed blobs, per-user quota accounting,
duplicate-aware uploads, gated deletion with garbage reclamation, and
download authorization.

The embedding models the relational rows as Lean structures, the database
plus the blob directory as a single state record, and each HTTP handler's
core logic (after the authentication and rate-limit gates, which the spec
treats as external collaborators) as a pure state transformer.
-/

namespace VinnoDrive

/-- Raw file content, a sequence of bytes. -/
abbrev Content := List Nat

/-- Content hash used as the blob key. The source uses the hex digest of
sha256 over the bytes (`hashlib.sha256(content).hexdigest()`, main.py:331)
and trusts hash equality as content equality, so the embedding keys blobs
by an injective function of the content: the content itself. -/
def hashBytes (content : Content) : Content := content

/-- A row of the `users` table (models.py): quota and usage are byte
counters. They are modelled as `Int` so that the clamped subtraction in
`delete_file` (main.py:538-540) can be stated exactly as in the source. -/
structure User where
  username : String
  password : String
  storage_quota : Int
  storage_used : Int
deriving DecidableEq

/-- A row of the `files` table (models.py): one logical upload event,
referencing a blob by content hash. -/
structure FileRecord where
  id : Nat
  filename : String
  uploader : String
  size : Int
  file_hash : Content
  is_duplicate : Bool
  folder : Option String
deriving DecidableEq

/-- A row of the `shares` table (models.py): a public share token. -/
structure Share where
  file_id : Nat
  share_token : String
  created_by : String
  is_active : Bool
  download_count : Int
deriving DecidableEq

/-- A row of the `shared_files` table (models.py): a private grant. -/
structure SharedFile where
  file_id : Nat
  shared_by : String
  shared_with : String
deriving DecidableEq

/-- The whole persistent state: the relational tables plus the blob
directory (`storage/blobs`, a set of content hashes present on the
medium). `next_id` models the autoincrementing primary key of `files`. -/
structure St where
  users : List User
  files : List FileRecord
  shares : List Share
  shared_files : List SharedFile
  blobs : List Content
  next_id : Nat
deriving DecidableEq

/-- `db.query(User).filter_by(username=...).first()`. -/
def findU (us : List User) (name : String) : Option User :=
  us.find? (fun u => u.username == name)

/-- In-place mutation of the first user row matching `name`, as SQLAlchemy
does when the object returned by `.first()` is mutated and committed. -/
def updateUser (name : String) (g : User → User) : List User → List User
  | [] => []
  | u :: us => if u.username == name then g u :: us else u :: updateUser name g us

/-- Two-digit zero-padded rendering of a number below 100. -/
def twoDigits (n : Nat) : String :=
  if n < 10 then "0" ++ toString n else toString n

/-- Rounds `num / den` to the nearest integer, ties to even — the rounding
Python's float formatting applies to an exactly representable value. -/
def roundHalfEven (num den : Nat) : Nat :=
  let q := num / den
  let r := num % den
  if 2 * r < den then q
  else if den < 2 * r then q + 1
  else if q % 2 == 0 then q else q + 1

/-- Renders a byte count in MB with two-decimal precision, as the source's
`bytes / (1024 * 1024)` followed by `:.2f` formatting (main.py:81-83).
Division by `2 ^ 20` is exact in binary floating point at these
magnitudes, and `:.2f` then rounds the exact value to the nearest
hundredth, ties to even, which is what this computes in exact integer
arithmetic. -/
def formatMB (bytes : Int) : String :=
  let hundredths := roundHalfEven (bytes.toNat * 100) (1024 * 1024)
  toString (hundredths / 100) ++ "." ++ twoDigits (hundredths % 100)

/-- `check_storage_quota` (main.py:74-85). Returns `(allowed, error_message)`. -/
def check_storage_quota (username : String) (file_size : Int) (st : St) :
    Bool × String :=
  match findU st.users username with
  | none => (false, "User not found")
  | some user =>
    if user.storage_used + file_size > user.storage_quota then
      (false,
        "Storage quota exceeded! You have " ++ formatMB user.storage_used
          ++ " MB / " ++ formatMB user.storage_quota ++ " MB used.")
    else (true, "")

/-- `user.storage_used += size` (main.py:376). -/
def chargeFn (bytes : Int) (u : User) : User :=
  { u with storage_used := u.storage_used + bytes }

/-- `user.storage_used -= file.size` followed by the clamp at zero
(main.py:538-540). -/
def refundFn (bytes : Int) (u : User) : User :=
  let used := u.storage_used - bytes
  { u with storage_used := if used < 0 then 0 else used }

/-- The QuotaLedger `tryCharge` operation of the spec: the quota check of
`check_storage_quota` (main.py:74-85) composed with the increment of
`storage_used` the upload handler performs on success (main.py:374-376). -/
def tryCharge (username : String) (bytes : Int) (st : St) :
    (Bool × String) × St :=
  let r := check_storage_quota username bytes st
  if r.1 then
    (r, { st with users := updateUser username (chargeFn bytes) st.users })
  else (r, st)

/-- `db.query(File).filter_by(uploader=..., file_hash=...).first() is not None`
(main.py:336-339): has this user uploaded this content before? -/
def hasPriorUpload (st : St) (username : String) (h : Content) : Bool :=
  st.files.any (fun f => f.uploader == username && f.file_hash == h)

/-- One item of a multi-file upload request. -/
structure UploadItem where
  filename : String
  content : Content
deriving DecidableEq

/-- The body of the per-file upload loop (main.py:328-379): hash, duplicate
check, quota gate (skip on failure), idempotent blob write, catalog insert,
conditional charge. Returns the new state and whether the item was
accepted (`false` means skipped on the quota gate). -/
def uploadStep (username : String) (folder : Option String) (st : St)
    (item : UploadItem) : St × Bool :=
  let content := item.content
  let size : Int := content.length
  let file_hash := hashBytes content
  let user_has_uploaded_before := hasPriorUpload st username file_hash
  if !user_has_uploaded_before && !(check_storage_quota username size st).1 then
    (st, false)
  else
    let blobs :=
      if st.blobs.contains file_hash then st.blobs else st.blobs ++ [file_hash]
    let folder_name : Option String :=
      match folder with
      | none => none
      | some s => if s == "" then none else some s.trim
    let record : FileRecord :=
      { id := st.next_id
        filename := item.filename
        uploader := username
        size := size
        file_hash := file_hash
        is_duplicate := user_has_uploaded_before
        folder := folder_name }
    let users :=
      if user_has_uploaded_before then st.users
      else updateUser username (chargeFn size) st.users
    ({ st with
        blobs := blobs
        files := st.files ++ [record]
        users := users
        next_id := st.next_id + 1 }, true)

/-- The `POST /upload` handler's core loop (main.py:328-382), after the
authentication and rate-limit gates. Returns the final state, the count of
accepted items and the count of quota-skipped items. -/
def upload_file (username : String) (folder : Option String) :
    List UploadItem → St → St × Nat × Nat
  | [], st => (st, 0, 0)
  | item :: rest, st =>
    let step := uploadStep username folder st item
    let r := upload_file username folder rest step.1
    if step.2 then (r.1, r.2.1 + 1, r.2.2) else (r.1, r.2.1, r.2.2 + 1)

/-- The folder group a record is displayed under (main.py:233):
`f.folder if f.folder else "Root"` — `None` and the empty string are both
falsy, so both land in the default `"Root"` group. -/
def displayGroup (f : FileRecord) : String :=
  match f.folder with
  | none => "Root"
  | some s => if s == "" then "Root" else s

/-- `db.query(File).filter_by(uploader=..., file_hash=..., is_duplicate=True).count()`
(main.py:522-526). -/
def countDuplicatesForUser (st : St) (username : String) (h : Content) : Nat :=
  (st.files.filter
    (fun f => f.uploader == username && f.file_hash == h && f.is_duplicate)).length

/-- `db.query(File).filter_by(file_hash=...).count()` (main.py:553): global
reference count of a content hash, across all users. -/
def countReferences (files : List FileRecord) (h : Content) : Nat :=
  (files.filter (fun f => f.file_hash == h)).length

/-- Outcome of a refused deletion: the 404 branch (main.py:515-517) versus
the duplicate-dependency redirect (main.py:528-529). -/
inductive DeleteErr where
  | notFound
  | dependentDuplicatesExist
deriving DecidableEq

/-- The `POST /delete/{file_id}` handler's core (main.py:500-558), after the
authentication and rate-limit gates: ownership lookup, duplicate-dependency
gate, clamped quota refund for non-duplicates, cascade removal of shares,
record removal, and blob reclamation when the global reference count
(taken after the removal) is zero. -/
def delete_file (username : String) (file_id : Nat) (st : St) :
    Except DeleteErr St :=
  match st.files.find? (fun f => f.id == file_id && f.uploader == username) with
  | none => .error .notFound
  | some file =>
    if !file.is_duplicate && countDuplicatesForUser st username file.file_hash > 0 then
      .error .dependentDuplicatesExist
    else
      let users :=
        if !file.is_duplicate then
          updateUser username (refundFn file.size) st.users
        else st.users
      let shares := st.shares.filter (fun s => s.file_id != file_id)
      let shared_files := st.shared_files.filter (fun s => s.file_id != file_id)
      let files := st.files.filter (fun f => f.id != file_id)
      let blobs :=
        if countReferences files file.file_hash == 0 then
          st.blobs.filter (fun b => b != file.file_hash)
        else st.blobs
      .ok { st with
        users := users
        shares := shares
        shared_files := shared_files
        files := files
        blobs := blobs }

/-- Outcome of a refused download: the 404 branches (main.py:477-479 and
490-491) versus the 403 access-denied branch (main.py:483-486). -/
inductive DownloadErr where
  | notFound
  | forbidden
deriving DecidableEq

/-- The `GET /download/{file_id}` handler (main.py:469-494), after the
authentication gate: lookup by id, owner-or-shared authorization, blob
existence check, then the served bytes (blob key and display filename). -/
def download_file (username : String) (file_id : Nat) (st : St) :
    Except DownloadErr (Content × String) :=
  match st.files.find? (fun f => f.id == file_id) with
  | none => .error .notFound
  | some file =>
    if file.uploader != username
        && (st.shared_files.find?
            (fun s => s.file_id == file_id && s.shared_with == username)).isNone then
      .error .forbidden
    else if !st.blobs.contains file.file_hash then
      .error .notFound
    else
      .ok (file.file_hash, file.filename)

/-- A core mutation request: a (possibly multi-file) upload or a deletion. -/
inductive Op where
  | upload (username : String) (folder : Option String) (items : List UploadItem)
  | delete (username : String) (file_id : Nat)

/-- Applies one request to the state; a refused deletion leaves the state
unchanged (the handler returns an error without mutating anything). -/
def applyOp (st : St) : Op → St
  | .upload username folder items => (upload_file username folder items st).1
  | .delete username file_id =>
    match delete_file username file_id st with
    | .ok st' => st'
    | .error _ => st

/-- Applies a sequence of requests in order. -/
def runOps (st : St) (ops : List Op) : St := ops.foldl applyOp st

/-- Total bytes of a user's non-duplicate records: the amount the spec says
`storage_used` must equal. -/
def usedBy (files : List FileRecord) (name : String) : Int :=
  ((files.filter (fun f => f.uploader == name && !f.is_duplicate)).map
    (fun f => f.size)).sum

/-- The QuotaLedger invariant: every user row's `storage_used` equals the
summed size of that user's non-duplicate records. -/
def LedgerOk (st : St) : Prop :=
  ∀ u ∈ st.users, u.storage_used = usedBy st.files u.username

/-- No user row carries a negative usage counter. -/
def UsageNonneg (st : St) : Prop :=
  ∀ u ∈ st.users, 0 ≤ u.storage_used

/-- Structural well-formedness a real database guarantees: unique
usernames, unique record ids below the autoincrement counter, nonnegative
record sizes, and the blob directory listing each hash at most once. -/
def WF (st : St) : Prop :=
  (st.users.map User.username).Nodup ∧
  (st.files.map FileRecord.id).Nodup ∧
  (∀ f ∈ st.files, f.id < st.next_id) ∧
  (∀ f ∈ st.files, 0 ≤ f.size) ∧
  st.blobs.Nodup

/-- What one record contributes to its uploader's quota usage. -/
def contribution (f : FileRecord) (name : String) : Int :=
  if f.uploader == name && !f.is_duplicate then f.size else 0

/-- The record an accepted upload of `item` inserts into the catalog. -/
def insertedRecord (username : String) (folder : Option String) (st : St)
    (item : UploadItem) : FileRecord :=
  { id := st.next_id
    filename := item.filename
    uploader := username
    size := (item.content.length : Int)
    file_hash := hashBytes item.content
    is_duplicate := hasPriorUpload st username (hashBytes item.content)
    folder := match folder with
      | none => none
      | some s => if s == "" then none else some s.trim }

/-- The blob directory after an accepted upload: unchanged when the hash is
already present, extended otherwise. -/
def blobsAfter (st : St) (h : Content) : List Content :=
  if st.blobs.contains h then st.blobs else st.blobs ++ [h]

/-- The state a successful deletion of `file` (looked up as `file_id`)
leaves behind, as built in main.py:532-555. -/
def deletedState (username : String) (file_id : Nat) (file : FileRecord)
    (st : St) : St :=
  let users :=
    if !file.is_duplicate then
      updateUser username (refundFn file.size) st.users
    else st.users
  let files := st.files.filter (fun f => f.id != file_id)
  { st with
    users := users
    shares := st.shares.filter (fun s => s.file_id != file_id)
    shared_files := st.shared_files.filter (fun s => s.file_id != file_id)
    files := files
    blobs :=
      if countReferences files file.file_hash == 0 then
        st.blobs.filter (fun b => b != file.file_hash)
      else st.blobs }

/-- How many copies of hash `h` the blob directory holds. -/
def countBlob (bs : List Content) (h : Content) : Nat :=
  (bs.filter (fun b => b == h)).length

/-- Concrete fixture: a user with a 100-byte quota and nothing stored. -/
def wAlice : User :=
  { username := "alice", password := "pw", storage_quota := 100,
    storage_used := 0 }

/-- Concrete fixture: a second user with a 100-byte quota. -/
def wBob : User :=
  { username := "bob", password := "pw", storage_quota := 100,
    storage_used := 0 }

/-- Concrete fixture: two users, empty catalog and blob directory. -/
def wSt : St :=
  { users := [wAlice, wBob], files := [], shares := [], shared_files := [],
    blobs := [], next_id := 0 }

/-- Concrete fixture: a two-byte upload. -/
def wItem : UploadItem := { filename := "a.txt", content := [1, 2] }

/-- Concrete fixture: a user with a 3-byte quota. -/
def wCarol : User :=
  { username := "carol", password := "pw", storage_quota := 3,
    storage_used := 0 }

/-- Concrete fixture: the 3-byte-quota user alone, empty catalog. -/
def wStTight : St :=
  { users := [wCarol], files := [], shares := [], shared_files := [],
    blobs := [], next_id := 0 }

/-- Concrete fixture: a four-byte upload, over the 3-byte quota. -/
def wItemBig : UploadItem := { filename := "big.bin", content := [1, 2, 3, 4] }

/-- Concrete fixture: a one-byte upload, within the 3-byte quota. -/
def wItemSmall : UploadItem := { filename := "ok.bin", content := [5] }

/-- Concrete fixture: a non-duplicate record owned by alice. -/
def wRecOrig : FileRecord :=
  { id := 0, filename := "a.txt", uploader := "alice", size := 2,
    file_hash := [1, 2], is_duplicate := false, folder := none }

/-- Concrete fixture: alice's duplicate record of the same content. -/
def wRecDup : FileRecord :=
  { id := 1, filename := "a-copy.txt", uploader := "alice", size := 2,
    file_hash := [1, 2], is_duplicate := true, folder := none }

/-- Concrete fixture: alice holds an original and a duplicate of one blob. -/
def wStFiles : St :=
  { users := [{ wAlice with storage_used := 2 }, wBob],
    files := [wRecOrig, wRecDup], shares := [], shared_files := [],
    blobs := [[1, 2]], next_id := 2 }

/-- Concrete fixture: alice holds a single record referencing one blob. -/
def wStOne : St :=
  { users := [{ wAlice with storage_used := 2 }, wBob],
    files := [wRecOrig], shares := [], shared_files := [],
    blobs := [[1, 2]], next_id := 2 }

theorem usedBy_nil (name : String) : usedBy [] name = 0 := rfl

theorem usedBy_cons (f : FileRecord) (fs : List FileRecord) (name : String) :
    usedBy (f :: fs) name = contribution f name + usedBy fs name := by
  simp only [usedBy, contribution, List.filter_cons]
  split
  · simp
  · simp

theorem usedBy_append (fs gs : List FileRecord) (name : String) :
    usedBy (fs ++ gs) name = usedBy fs name + usedBy gs name := by
  simp [usedBy, List.filter_append]

theorem usedBy_nonneg (fs : List FileRecord) (name : String)
    (h : ∀ f ∈ fs, 0 ≤ f.size) : 0 ≤ usedBy fs name := by
  apply List.sum_nonneg
  intro x hx
  simp only [List.mem_map, List.mem_filter] at hx
  obtain ⟨f, ⟨hf, _⟩, rfl⟩ := hx
  exact h f hf

theorem contribution_nonneg (f : FileRecord) (name : String) (h : 0 ≤ f.size) :
    0 ≤ contribution f name := by
  unfold contribution
  split <;> simp [h]

theorem updateUser_map_username (name : String) (g : User → User)
    (hg : ∀ u, (g u).username = u.username) (us : List User) :
    (updateUser name g us).map User.username = us.map User.username := by
  induction us with
  | nil => rfl
  | cons u us ih =>
    simp only [updateUser]
    split
    · simp [hg]
    · simp [ih]

theorem mem_updateUser_weak {u' : User} (name : String) (g : User → User)
    (us : List User) (h : u' ∈ updateUser name g us) :
    ∃ u ∈ us, u' = u ∨ u' = g u := by
  induction us with
  | nil => simp [updateUser] at h
  | cons u us ih =>
    simp only [updateUser] at h
    split at h
    · rcases List.mem_cons.mp h with h | h
      · exact ⟨u, List.mem_cons_self u us, Or.inr h⟩
      · exact ⟨u', List.mem_cons_of_mem _ h, Or.inl rfl⟩
    · rcases List.mem_cons.mp h with h | h
      · exact ⟨u, List.mem_cons_self u us, Or.inl h⟩
      · obtain ⟨w, hw, hww⟩ := ih h
        exact ⟨w, List.mem_cons_of_mem _ hw, hww⟩

theorem mem_updateUser {u' : User} (name : String) (g : User → User)
    (us : List User)
    (hnd : (us.map User.username).Nodup) (h : u' ∈ updateUser name g us) :
    (u' ∈ us ∧ u'.username ≠ name) ∨ ∃ u ∈ us, u.username = name ∧ u' = g u := by
  induction us with
  | nil => simp [updateUser] at h
  | cons u us ih =>
    rw [List.map_cons, List.nodup_cons] at hnd
    simp only [updateUser] at h
    split at h
    · rename_i hb
      have hbn : u.username = name := by simpa using hb
      rcases List.mem_cons.mp h with h | h
      · exact Or.inr ⟨u, List.mem_cons_self u us, hbn, h⟩
      · refine Or.inl ⟨List.mem_cons_of_mem _ h, fun hc => ?_⟩
        exact hnd.1 (hbn ▸ hc ▸ List.mem_map_of_mem User.username h)
    · rename_i hb
      have hbn : u.username ≠ name := by simpa using hb
      rcases List.mem_cons.mp h with h | h
      · exact Or.inl ⟨List.mem_cons.mpr (Or.inl h), h ▸ hbn⟩
      · rcases ih hnd.2 h with ⟨hm, hne⟩ | ⟨w, hw, hwn, hwe⟩
        · exact Or.inl ⟨List.mem_cons_of_mem _ hm, hne⟩
        · exact Or.inr ⟨w, List.mem_cons_of_mem _ hw, hwn, hwe⟩

theorem findU_updateUser_self (name : String) (g : User → User)
    (hg : ∀ u, (g u).username = u.username) (us : List User) :
    findU (updateUser name g us) name = (findU us name).map g := by
  induction us with
  | nil => rfl
  | cons u us ih =>
    simp only [updateUser]
    split
    · rename_i hb
      simp [findU, List.find?_cons, hg, hb]
    · rename_i hb
      rw [Bool.not_eq_true] at hb
      simp only [findU, List.find?_cons, hb]
      exact ih

theorem findU_updateUser_other (name name' : String) (hne : name ≠ name')
    (g : User → User) (hg : ∀ u, (g u).username = u.username) (us : List User) :
    findU (updateUser name' g us) name = findU us name := by
  induction us with
  | nil => rfl
  | cons u us ih =>
    simp only [updateUser]
    split
    · rename_i hb
      have hbn : u.username = name' := by simpa using hb
      have h1 : ((g u).username == name) = false := by
        simp [hg, hbn]
        exact fun hc => hne hc.symm
      have h2 : (u.username == name) = false := by
        simp [hbn]
        exact fun hc => hne hc.symm
      simp [findU, List.find?_cons, h1, h2]
    · simp only [findU, List.find?_cons]
      split
      · rfl
      · exact ih

theorem usedBy_filter_ne_id (fs : List FileRecord) (r : FileRecord) (name : String)
    (hnd : (fs.map FileRecord.id).Nodup) (hr : r ∈ fs) :
    usedBy (fs.filter (fun f => f.id != r.id)) name =
      usedBy fs name - contribution r name := by
  induction fs with
  | nil => cases hr
  | cons f fs ih =>
    rw [List.map_cons, List.nodup_cons] at hnd
    rcases List.mem_cons.mp hr with rfl | hr
    · have hall : ∀ f' ∈ fs, (f'.id != r.id) = true := by
        intro f' hf'
        have : f'.id ≠ r.id := by
          intro hc
          exact hnd.1 (hc ▸ List.mem_map_of_mem FileRecord.id hf')
        simpa using this
      rw [List.filter_cons, if_neg (by simp), List.filter_eq_self.mpr hall,
        usedBy_cons]
      ring
    · have hne : f.id ≠ r.id := by
        intro hc
        exact hnd.1 (hc ▸ List.mem_map_of_mem FileRecord.id hr)
      rw [List.filter_cons, if_pos (by simpa using hne), usedBy_cons, usedBy_cons,
        ih hnd.2 hr]
      ring

theorem uploadStep_skip (username : String) (folder : Option String) (st : St)
    (item : UploadItem)
    (hprior : hasPriorUpload st username (hashBytes item.content) = false)
    (hq : (check_storage_quota username (item.content.length : Int) st).1 = false) :
    uploadStep username folder st item = (st, false) := by
  simp [uploadStep, hprior, hq]

theorem uploadStep_accept_dup (username : String) (folder : Option String) (st : St)
    (item : UploadItem)
    (hprior : hasPriorUpload st username (hashBytes item.content) = true) :
    uploadStep username folder st item =
      ({ st with
          blobs := blobsAfter st (hashBytes item.content)
          files := st.files ++ [insertedRecord username folder st item]
          next_id := st.next_id + 1 }, true) := by
  simp [uploadStep, hprior, insertedRecord, blobsAfter]

theorem uploadStep_accept_new (username : String) (folder : Option String) (st : St)
    (item : UploadItem)
    (hprior : hasPriorUpload st username (hashBytes item.content) = false)
    (hq : (check_storage_quota username (item.content.length : Int) st).1 = true) :
    uploadStep username folder st item =
      ({ st with
          blobs := blobsAfter st (hashBytes item.content)
          files := st.files ++ [insertedRecord username folder st item]
          users := updateUser username (chargeFn (item.content.length : Int)) st.users
          next_id := st.next_id + 1 }, true) := by
  simp [uploadStep, hprior, hq, insertedRecord, blobsAfter]

theorem delete_file_not_found (username : String) (file_id : Nat) (st : St)
    (hfind : st.files.find? (fun f => f.id == file_id && f.uploader == username)
      = none) :
    delete_file username file_id st = .error .notFound := by
  simp [delete_file, hfind]

theorem delete_file_gate (username : String) (file_id : Nat) (st : St)
    (file : FileRecord)
    (hfind : st.files.find? (fun f => f.id == file_id && f.uploader == username)
      = some file)
    (hdup : file.is_duplicate = false)
    (hcnt : 0 < countDuplicatesForUser st username file.file_hash) :
    delete_file username file_id st = .error .dependentDuplicatesExist := by
  simp [delete_file, hfind, hdup, hcnt]

theorem delete_file_ok_char (username : String) (file_id : Nat) (st : St)
    (file : FileRecord)
    (hfind : st.files.find? (fun f => f.id == file_id && f.uploader == username)
      = some file)
    (hpass : file.is_duplicate = true ∨
      countDuplicatesForUser st username file.file_hash = 0) :
    delete_file username file_id st = .ok (deletedState username file_id file st) := by
  rcases hpass with hdup | hcnt
  · simp [delete_file, hfind, hdup, deletedState]
  · simp [delete_file, hfind, hcnt, deletedState]

theorem delete_file_ok_inv {username : String} {file_id : Nat} {st st' : St}
    (h : delete_file username file_id st = .ok st') :
    ∃ file,
      st.files.find? (fun f => f.id == file_id && f.uploader == username)
        = some file ∧
      (file.is_duplicate = true ∨
        countDuplicatesForUser st username file.file_hash = 0) ∧
      st' = deletedState username file_id file st := by
  cases hfind : st.files.find? (fun f => f.id == file_id && f.uploader == username) with
  | none =>
    rw [delete_file_not_found username file_id st hfind] at h
    cases h
  | some file =>
    have hdup_or : file.is_duplicate = true ∨
        countDuplicatesForUser st username file.file_hash = 0 := by
      by_cases hdup : file.is_duplicate = true
      · exact Or.inl hdup
      · by_cases hcnt : countDuplicatesForUser st username file.file_hash = 0
        · exact Or.inr hcnt
        · exfalso
          rw [delete_file_gate username file_id st file hfind
            (by simpa using hdup) (Nat.pos_of_ne_zero hcnt)] at h
          cases h
    rw [delete_file_ok_char username file_id st file hfind hdup_or] at h
    injection h with h
    exact ⟨file, rfl, hdup_or, h.symm⟩

theorem upload_file_cons_fst (username : String) (folder : Option String)
    (item : UploadItem) (rest : List UploadItem) (st : St) :
    (upload_file username folder (item :: rest) st).1 =
      (upload_file username folder rest (uploadStep username folder st item).1).1 := by
  simp only [upload_file]
  split <;> rfl

theorem wf_insert_aux (username : String) (folder : Option String) (st : St)
    (item : UploadItem) (users' : List User)
    (husers : users'.map User.username = st.users.map User.username)
    (hwf : WF st) :
    WF { st with
      blobs := blobsAfter st (hashBytes item.content)
      files := st.files ++ [insertedRecord username folder st item]
      users := users'
      next_id := st.next_id + 1 } := by
  obtain ⟨hun, hid, hlt, hsz, hbl⟩ := hwf
  refine ⟨?_, ?_, ?_, ?_, ?_⟩
  · simpa [husers] using hun
  · simp only [List.map_append]
    rw [List.nodup_append]
    refine ⟨hid, List.nodup_singleton _, ?_⟩
    intro a ha hb
    simp only [List.mem_map] at ha
    obtain ⟨f, hf, rfl⟩ := ha
    simp [insertedRecord] at hb
    exact absurd hb (Nat.ne_of_lt (hlt f hf))
  · intro f hf
    rcases List.mem_append.mp hf with hf | hf
    · exact Nat.lt_succ_of_lt (hlt f hf)
    · rw [List.mem_singleton.mp hf]
      exact Nat.lt_succ_self _
  · intro f hf
    rcases List.mem_append.mp hf with hf | hf
    · exact hsz f hf
    · rw [List.mem_singleton.mp hf]
      exact Int.ofNat_nonneg _
  · unfold blobsAfter
    split
    · exact hbl
    · rename_i hc
      rw [List.nodup_append]
      refine ⟨hbl, List.nodup_singleton _, ?_⟩
      intro a ha hb
      rw [List.mem_singleton.mp hb] at ha
      exact absurd ha (by simpa using hc)

theorem wf_uploadStep (username : String) (folder : Option String) (st : St)
    (item : UploadItem) (hwf : WF st) :
    WF (uploadStep username folder st item).1 := by
  cases hprior : hasPriorUpload st username (hashBytes item.content) with
  | true =>
    rw [uploadStep_accept_dup username folder st item hprior]
    exact wf_insert_aux username folder st item st.users rfl hwf
  | false =>
    cases hq : (check_storage_quota username (item.content.length : Int) st).1 with
    | false =>
      rw [uploadStep_skip username folder st item hprior hq]
      exact hwf
    | true =>
      rw [uploadStep_accept_new username folder st item hprior hq]
      exact wf_insert_aux username folder st item _
        (updateUser_map_username username (chargeFn (item.content.length : Int))
          (fun u => rfl) st.users) hwf

theorem wf_upload_file (username : String) (folder : Option String) :
    ∀ (items : List UploadItem) (st : St), WF st →
      WF (upload_file username folder items st).1
  | [], _, h => h
  | item :: rest, st, h => by
    rw [upload_file_cons_fst]
    exact wf_upload_file username folder rest _
      (wf_uploadStep username folder st item h)

theorem deletedState_users (username : String) (file_id : Nat)
    (file : FileRecord) (st : St) :
    (deletedState username file_id file st).users =
      if !file.is_duplicate then
        updateUser username (refundFn file.size) st.users
      else st.users := rfl

theorem deletedState_files (username : String) (file_id : Nat)
    (file : FileRecord) (st : St) :
    (deletedState username file_id file st).files =
      st.files.filter (fun f => f.id != file_id) := rfl

theorem deletedState_shares (username : String) (file_id : Nat)
    (file : FileRecord) (st : St) :
    (deletedState username file_id file st).shares =
      st.shares.filter (fun s => s.file_id != file_id) := rfl

theorem deletedState_shared_files (username : String) (file_id : Nat)
    (file : FileRecord) (st : St) :
    (deletedState username file_id file st).shared_files =
      st.shared_files.filter (fun s => s.file_id != file_id) := rfl

theorem deletedState_blobs (username : String) (file_id : Nat)
    (file : FileRecord) (st : St) :
    (deletedState username file_id file st).blobs =
      if countReferences (st.files.filter (fun f => f.id != file_id))
          file.file_hash == 0 then
        st.blobs.filter (fun b => b != file.file_hash)
      else st.blobs := rfl

theorem wf_deletedState (username : String) (file_id : Nat) (file : FileRecord)
    (st : St) (hwf : WF st) : WF (deletedState username file_id file st) := by
  obtain ⟨hun, hid, hlt, hsz, hbl⟩ := hwf
  refine ⟨?_, ?_, ?_, ?_, ?_⟩
  · rw [deletedState_users]
    split
    · rw [updateUser_map_username username (refundFn file.size) (fun u => rfl)
        st.users]
      exact hun
    · exact hun
  · exact ((List.filter_sublist _).map _).nodup hid
  · intro f hf
    exact hlt f (List.mem_of_mem_filter hf)
  · intro f hf
    exact hsz f (List.mem_of_mem_filter hf)
  · rw [deletedState_blobs]
    split
    · exact (List.filter_sublist _).nodup hbl
    · exact hbl

theorem wf_delete_ok {username : String} {file_id : Nat} {st st' : St}
    (h : delete_file username file_id st = .ok st') (hwf : WF st) : WF st' := by
  obtain ⟨file, _, _, rfl⟩ := delete_file_ok_inv h
  exact wf_deletedState username file_id file st hwf

theorem wf_applyOp (st : St) (op : Op) (hwf : WF st) : WF (applyOp st op) := by
  cases op with
  | upload username folder items => exact wf_upload_file username folder items st hwf
  | delete username file_id =>
    simp only [applyOp]
    cases h : delete_file username file_id st with
    | ok st' => exact wf_delete_ok h hwf
    | error e => exact hwf

theorem wf_runOps (ops : List Op) : ∀ (st : St), WF st → WF (runOps st ops) := by
  induction ops with
  | nil => exact fun st h => h
  | cons op ops ih =>
    intro st h
    exact ih (applyOp st op) (wf_applyOp st op h)

theorem find?_delete_facts {st : St} {username : String} {fid : Nat}
    {file : FileRecord}
    (hfind : st.files.find? (fun f => f.id == fid && f.uploader == username)
      = some file) :
    file ∈ st.files ∧ file.id = fid ∧ file.uploader = username := by
  have hmem := List.mem_of_find?_eq_some hfind
  have hp := List.find?_some hfind
  simp only [Bool.and_eq_true, beq_iff_eq] at hp
  exact ⟨hmem, hp.1, hp.2⟩

theorem ledger_uploadStep (username : String) (folder : Option String) (st : St)
    (item : UploadItem) (hnd : (st.users.map User.username).Nodup)
    (hL : LedgerOk st) : LedgerOk (uploadStep username folder st item).1 := by
  cases hprior : hasPriorUpload st username (hashBytes item.content) with
  | true =>
    rw [uploadStep_accept_dup username folder st item hprior]
    intro u hu
    show u.storage_used =
      usedBy (st.files ++ [insertedRecord username folder st item]) u.username
    rw [usedBy_append, usedBy_cons, usedBy_nil]
    have hc : contribution (insertedRecord username folder st item) u.username = 0 := by
      simp [contribution, insertedRecord, hprior]
    rw [hc]
    simpa using hL u hu
  | false =>
    cases hq : (check_storage_quota username (item.content.length : Int) st).1 with
    | false =>
      rw [uploadStep_skip username folder st item hprior hq]
      exact hL
    | true =>
      rw [uploadStep_accept_new username folder st item hprior hq]
      intro u' hu'
      show u'.storage_used =
        usedBy (st.files ++ [insertedRecord username folder st item]) u'.username
      rw [usedBy_append, usedBy_cons, usedBy_nil]
      rcases mem_updateUser username (chargeFn (item.content.length : Int))
          st.users hnd hu' with ⟨hm, hne⟩ | ⟨u, hm, hname, rfl⟩
      · have hc : contribution (insertedRecord username folder st item)
            u'.username = 0 := by
          simp [contribution, insertedRecord]
          intro hc'
          exact absurd hc'.symm hne
        rw [hc]
        simpa using hL u' hm
      · have huser : (chargeFn (item.content.length : Int) u).username = username := by
          simpa [chargeFn] using hname
        rw [huser]
        have hc : contribution (insertedRecord username folder st item) username
            = (item.content.length : Int) := by
          simp [contribution, insertedRecord, hprior]
        rw [hc]
        have : (chargeFn (item.content.length : Int) u).storage_used =
            u.storage_used + (item.content.length : Int) := rfl
        rw [this, hL u hm, hname]
        ring

theorem ledger_upload_file (username : String) (folder : Option String) :
    ∀ (items : List UploadItem) (st : St), WF st → LedgerOk st →
      LedgerOk (upload_file username folder items st).1
  | [], _, _, hL => hL
  | item :: rest, st, hwf, hL => by
    rw [upload_file_cons_fst]
    exact ledger_upload_file username folder rest _
      (wf_uploadStep username folder st item hwf)
      (ledger_uploadStep username folder st item hwf.1 hL)

theorem ledger_deletedState (username : String) (fid : Nat) (file : FileRecord)
    (st : St)
    (hfind : st.files.find? (fun f => f.id == fid && f.uploader == username)
      = some file)
    (hwf : WF st) (hL : LedgerOk st) :
    LedgerOk (deletedState username fid file st) := by
  obtain ⟨hun, hid, hlt, hsz, hbl⟩ := hwf
  obtain ⟨hmem, hfid, hupl⟩ := find?_delete_facts hfind
  subst hfid
  have herase := fun name => usedBy_filter_ne_id st.files file name hid hmem
  intro u' hu'
  rw [deletedState_users] at hu'
  show u'.storage_used =
    usedBy (st.files.filter (fun f => f.id != file.id)) u'.username
  cases hdup : file.is_duplicate with
  | true =>
    rw [hdup] at hu'
    simp at hu'
    rw [herase u'.username]
    have hc : contribution file u'.username = 0 := by
      simp [contribution, hdup]
    rw [hc, hL u' hu']
    ring
  | false =>
    rw [hdup] at hu'
    simp only [Bool.not_false, if_pos rfl] at hu'
    rcases mem_updateUser username (refundFn file.size) st.users hun hu'
        with ⟨hm, hne⟩ | ⟨u, hm, hname, rfl⟩
    · rw [herase u'.username]
      have hc : contribution file u'.username = 0 := by
        simp [contribution, hupl]
        intro hc'
        exact absurd hc'.symm hne
      rw [hc, hL u' hm]
      ring
    · have huser : (refundFn file.size u).username = username := by
        simpa [refundFn] using hname
      rw [huser, herase username]
      have hc : contribution file username = file.size := by
        simp [contribution, hupl, hdup]
      rw [hc, ← hname, ← hL u hm]
      have hnn : 0 ≤ usedBy (st.files.filter (fun f => f.id != file.id))
          u.username := by
        refine usedBy_nonneg _ _ ?_
        intro f hf
        exact hsz f (List.mem_of_mem_filter hf)
      rw [herase u.username, ← hL u hm] at hnn
      have hc2 : contribution file u.username = file.size := by
        simp [contribution, hupl, hname, hdup]
      rw [hc2] at hnn
      show (if u.storage_used - file.size < 0 then 0 else u.storage_used - file.size)
        = u.storage_used - file.size
      rw [if_neg (by omega)]

theorem ledger_applyOp (st : St) (op : Op) (hwf : WF st) (hL : LedgerOk st) :
    LedgerOk (applyOp st op) := by
  cases op with
  | upload username folder items =>
    exact ledger_upload_file username folder items st hwf hL
  | delete username file_id =>
    simp only [applyOp]
    cases h : delete_file username file_id st with
    | ok st' =>
      obtain ⟨file, hfind, _, rfl⟩ := delete_file_ok_inv h
      exact ledger_deletedState username file_id file st hfind hwf hL
    | error e => exact hL

theorem ledger_runOps (ops : List Op) : ∀ (st : St), WF st → LedgerOk st →
    LedgerOk (runOps st ops) := by
  induction ops with
  | nil => exact fun _ _ h => h
  | cons op ops ih =>
    intro st hwf hL
    exact ih (applyOp st op) (wf_applyOp st op hwf) (ledger_applyOp st op hwf hL)

theorem nonneg_uploadStep (username : String) (folder : Option String) (st : St)
    (item : UploadItem) (h : UsageNonneg st) :
    UsageNonneg (uploadStep username folder st item).1 := by
  cases hprior : hasPriorUpload st username (hashBytes item.content) with
  | true =>
    rw [uploadStep_accept_dup username folder st item hprior]
    intro u hu
    exact h u hu
  | false =>
    cases hq : (check_storage_quota username (item.content.length : Int) st).1 with
    | false =>
      rw [uploadStep_skip username folder st item hprior hq]
      exact h
    | true =>
      rw [uploadStep_accept_new username folder st item hprior hq]
      intro u' hu'
      obtain ⟨u, hm, hcase⟩ := mem_updateUser_weak username
        (chargeFn (item.content.length : Int)) st.users hu'
      rcases hcase with h1 | h1
      · rw [h1]
        exact h u hm
      · rw [h1]
        show (0 : Int) ≤ u.storage_used + (item.content.length : Int)
        have := h u hm
        positivity

theorem nonneg_upload_file (username : String) (folder : Option String) :
    ∀ (items : List UploadItem) (st : St), UsageNonneg st →
      UsageNonneg (upload_file username folder items st).1
  | [], _, h => h
  | item :: rest, st, h => by
    rw [upload_file_cons_fst]
    exact nonneg_upload_file username folder rest _
      (nonneg_uploadStep username folder st item h)

theorem nonneg_deletedState (username : String) (fid : Nat) (file : FileRecord)
    (st : St) (h : UsageNonneg st) :
    UsageNonneg (deletedState username fid file st) := by
  intro u' hu'
  rw [deletedState_users] at hu'
  cases hdup : file.is_duplicate with
  | true =>
    rw [hdup] at hu'
    simp at hu'
    exact h u' hu'
  | false =>
    rw [hdup] at hu'
    simp only [Bool.not_false, if_pos rfl] at hu'
    obtain ⟨u, hm, hcase⟩ := mem_updateUser_weak username (refundFn file.size)
      st.users hu'
    rcases hcase with h1 | h1
    · rw [h1]
      exact h u hm
    · rw [h1]
      show (0 : Int) ≤ if u.storage_used - file.size < 0 then 0
        else u.storage_used - file.size
      split
      · exact le_refl 0
      · omega

theorem nonneg_applyOp (st : St) (op : Op) (h : UsageNonneg st) :
    UsageNonneg (applyOp st op) := by
  cases op with
  | upload username folder items =>
    exact nonneg_upload_file username folder items st h
  | delete username file_id =>
    simp only [applyOp]
    cases hd : delete_file username file_id st with
    | ok st' =>
      obtain ⟨file, _, _, rfl⟩ := delete_file_ok_inv hd
      exact nonneg_deletedState username file_id file st h
    | error e => exact h

theorem nonneg_runOps (ops : List Op) : ∀ (st : St), UsageNonneg st →
    UsageNonneg (runOps st ops) := by
  induction ops with
  | nil => exact fun _ h => h
  | cons op ops ih =>
    intro st h
    exact ih (applyOp st op) (nonneg_applyOp st op h)

theorem check_storage_quota_ok {st : St} {username : String} {size : Int}
    {u : User} (hu : findU st.users username = some u)
    (hq : u.storage_used + size ≤ u.storage_quota) :
    check_storage_quota username size st = (true, "") := by
  simp only [check_storage_quota, hu]
  rw [if_neg (by omega)]

theorem check_storage_quota_exceeded {st : St} {username : String} {size : Int}
    {u : User} (hu : findU st.users username = some u)
    (hq : u.storage_quota < u.storage_used + size) :
    check_storage_quota username size st =
      (false,
        "Storage quota exceeded! You have " ++ formatMB u.storage_used
          ++ " MB / " ++ formatMB u.storage_quota ++ " MB used.") := by
  simp only [check_storage_quota, hu]
  rw [if_pos (by omega)]

theorem no_prior_filter_nil (st : St) (username : String) (h : Content)
    (p : FileRecord → Bool)
    (hprior : hasPriorUpload st username h = false) :
    st.files.filter
      (fun f => f.uploader == username && f.file_hash == h && p f) = [] := by
  simp only [hasPriorUpload, List.any_eq_false, Bool.and_eq_true, beq_iff_eq,
    not_and] at hprior
  rw [List.filter_eq_nil_iff]
  intro f hf
  simp only [Bool.and_eq_true, beq_iff_eq]
  rintro ⟨⟨h1, h2⟩, -⟩
  exact hprior f hf h1 h2

theorem mem_blobsAfter_self (st : St) (h : Content) : h ∈ blobsAfter st h := by
  unfold blobsAfter
  split
  · rename_i hc
    simpa using hc
  · simp

theorem countBlob_eq_zero (bs : List Content) (h : Content) (hc : h ∉ bs) :
    countBlob bs h = 0 := by
  unfold countBlob
  rw [List.length_eq_zero, List.filter_eq_nil_iff]
  intro b hb
  simp only [beq_iff_eq]
  rintro rfl
  exact hc hb

theorem countBlob_nodup_mem (h : Content) :
    ∀ bs : List Content, bs.Nodup → h ∈ bs → countBlob bs h = 1 := by
  intro bs
  induction bs with
  | nil => intro _ hm; cases hm
  | cons b tl ih =>
    intro hnd hm
    rw [List.nodup_cons] at hnd
    rcases List.mem_cons.mp hm with rfl | hm'
    · simp only [countBlob, List.filter_cons]
      rw [if_pos (by simp)]
      have h0 : countBlob tl h = 0 := countBlob_eq_zero tl h hnd.1
      unfold countBlob at h0
      simp [h0]
    · have hbh : (b == h) = false := by
        simp only [beq_eq_false_iff_ne, ne_eq]
        rintro rfl
        exact hnd.1 hm'
      simp only [countBlob, List.filter_cons]
      rw [if_neg (by simp [hbh])]
      exact ih hnd.2 hm'

theorem countBlob_blobsAfter_self (st : St) (h : Content)
    (hnd : st.blobs.Nodup) : countBlob (blobsAfter st h) h = 1 := by
  unfold blobsAfter
  split
  · rename_i hc
    exact countBlob_nodup_mem h st.blobs hnd (by simpa using hc)
  · rename_i hc
    unfold countBlob
    rw [List.filter_append]
    have h0 : countBlob st.blobs h = 0 := countBlob_eq_zero st.blobs h
      (by simpa using hc)
    unfold countBlob at h0
    simp [h0]

theorem blobsAfter_of_mem (st : St) (h : Content) (hm : h ∈ st.blobs) :
    blobsAfter st h = st.blobs := by
  unfold blobsAfter
  rw [if_pos (by simpa using hm)]

theorem upload_file_single (username : String) (folder : Option String)
    (item : UploadItem) (st : St) :
    (upload_file username folder [item] st).1 =
      (uploadStep username folder st item).1 := by
  rw [upload_file_cons_fst]
  rfl

/-- C3: in a batch upload, an item that is not a prior upload for the user
and whose size would push `storage_used` over `storage_quota` is skipped
— the state is left exactly as it was (no blob write, no record, no
charge) — and the remaining items of the batch are still processed
normally, with only the skip count incremented. -/
theorem quota_skip_is_isolated (st : St) (username : String)
    (folder : Option String) (item : UploadItem) (rest : List UploadItem)
    (u : User)
    (hu : findU st.users username = some u)
    (hprior : hasPriorUpload st username (hashBytes item.content) = false)
    (hover : u.storage_quota < u.storage_used + (item.content.length : Int)) :
    uploadStep username folder st item = (st, false) ∧
    upload_file username folder (item :: rest) st =
      ((upload_file username folder rest st).1,
        (upload_file username folder rest st).2.1,
        (upload_file username folder rest st).2.2 + 1) := by
  have hq : (check_storage_quota username (item.content.length : Int) st).1
      = false := by
    rw [check_storage_quota_exceeded hu hover]
  have hs := uploadStep_skip username folder st item hprior hq
  refine ⟨hs, ?_⟩
  simp only [upload_file, hs]
  simp

/-- C4: the quota charge succeeds exactly when `storage_used + bytes` fits
under `storage_quota`; on success the user's `storage_used` is incremented
by `bytes`, and on failure the state is untouched and the error message
reports current usage and quota, both rendered in MB with two-decimal
precision. -/
theorem tryCharge_spec (st : St) (username : String) (bytes : Int) (u : User)
    (hu : findU st.users username = some u) :
    ((tryCharge username bytes st).1.1 = true ↔
      u.storage_used + bytes ≤ u.storage_quota) ∧
    ((tryCharge username bytes st).1.1 = true →
      findU (tryCharge username bytes st).2.users username =
        some { u with storage_used := u.storage_used + bytes }) ∧
    ((tryCharge username bytes st).1.1 = false →
      (tryCharge username bytes st).2 = st ∧
      (tryCharge username bytes st).1.2 =
        "Storage quota exceeded! You have " ++ formatMB u.storage_used
          ++ " MB / " ++ formatMB u.storage_quota ++ " MB used.") := by
  by_cases hq : u.storage_used + bytes ≤ u.storage_quota
  · have hc := check_storage_quota_ok hu hq
    have hchar : tryCharge username bytes st =
        ((true, ""),
          { st with users := updateUser username (chargeFn bytes) st.users }) := by
      simp [tryCharge, hc]
    rw [hchar]
    refine ⟨by simp [hq], fun _ => ?_, by simp⟩
    show findU (updateUser username (chargeFn bytes) st.users) username = _
    rw [findU_updateUser_self username (chargeFn bytes) (fun u => rfl) st.users,
      hu]
    rfl
  · have hc := @check_storage_quota_exceeded st username bytes u hu (by omega)
    have hchar : tryCharge username bytes st =
        ((false,
          "Storage quota exceeded! You have " ++ formatMB u.storage_used
            ++ " MB / " ++ formatMB u.storage_quota ++ " MB used."), st) := by
      simp [tryCharge, hc]
    rw [hchar]
    exact ⟨by simp [hq], by simp, fun _ => ⟨rfl, rfl⟩⟩

/-- C5: a deletion request by the owner of a non-duplicate record, while a
duplicate record of the same user and hash exists, is refused with
`dependentDuplicatesExist` — an error distinct from `notFound` — and the
state is left completely unchanged. -/
theorem delete_gate_refuses (st : St) (username : String) (fid : Nat)
    (r other : FileRecord)
    (hfind : st.files.find? (fun f => f.id == fid && f.uploader == username)
      = some r)
    (hdup : r.is_duplicate = false)
    (hother : other ∈ st.files) (ho1 : other.uploader = username)
    (ho2 : other.file_hash = r.file_hash) (ho3 : other.is_duplicate = true) :
    delete_file username fid st = .error .dependentDuplicatesExist ∧
    DeleteErr.dependentDuplicatesExist ≠ DeleteErr.notFound ∧
    applyOp st (Op.delete username fid) = st := by
  have hcnt : 0 < countDuplicatesForUser st username r.file_hash := by
    unfold countDuplicatesForUser
    rw [List.length_pos]
    intro hnil
    have : other ∈ (List.nil : List FileRecord) := by
      rw [← hnil]
      rw [List.mem_filter]
      exact ⟨hother, by simp [ho1, ho2, ho3]⟩
    cases this
  have hgate := delete_file_gate username fid st r hfind hdup hcnt
  exact ⟨hgate, by simp, by simp [applyOp, hgate]⟩

/-- C6: after a successful deletion, the blob for the deleted record's hash
is still on the medium exactly when some record (of any user) still
references that hash, the reference count being taken on the state after
the record's removal. -/
theorem blob_reclaimed_iff_orphaned (st st' : St) (username : String)
    (fid : Nat) (r : FileRecord)
    (hfind : st.files.find? (fun f => f.id == fid && f.uploader == username)
      = some r)
    (hdel : delete_file username fid st = .ok st')
    (hb : r.file_hash ∈ st.blobs) :
    (r.file_hash ∈ st'.blobs ↔ 0 < countReferences st'.files r.file_hash) := by
  obtain ⟨file, hfind', _, rfl⟩ := delete_file_ok_inv hdel
  rw [hfind] at hfind'
  injection hfind' with hfe
  subst hfe
  rw [deletedState_files, deletedState_blobs]
  by_cases hz : countReferences (st.files.filter (fun f => f.id != fid))
      r.file_hash = 0
  · rw [if_pos (by simpa using hz), hz]
    simp only [Nat.lt_irrefl, iff_false]
    intro hmem
    rw [List.mem_filter] at hmem
    simp at hmem
  · rw [if_neg (by simpa using hz)]
    have : 0 < countReferences (st.files.filter (fun f => f.id != fid))
        r.file_hash := Nat.pos_of_ne_zero hz
    exact ⟨fun _ => this, fun _ => hb⟩

/-- C7: `storage_used` never becomes negative under any sequence of uploads
and deletions (hence refunds), however ordered or repeated, and the refund
operation itself always leaves a nonnegative counter because the decrement
is clamped at zero. -/
theorem storage_used_never_negative (st : St) (hnn : UsageNonneg st) :
    (∀ ops : List Op, UsageNonneg (runOps st ops)) ∧
    (∀ (bytes : Int) (u : User), 0 ≤ (refundFn bytes u).storage_used) := by
  refine ⟨fun ops => nonneg_runOps ops st hnn, fun bytes u => ?_⟩
  show (0 : Int) ≤ if u.storage_used - bytes < 0 then 0 else u.storage_used - bytes
  split
  · exact le_refl 0
  · omega

/-- C8: in every well-formed state satisfying the ledger invariant —
`storage_used` equals the summed size of the user's non-duplicate records —
the invariant is preserved by every upload (which charges exactly the size
of each inserted non-duplicate record), by every successful deletion (which
refunds exactly the size of a removed non-duplicate record and nothing for
a duplicate), and hence by every reachable state under these operations. -/
theorem ledger_invariant_preserved (st : St) (hwf : WF st) (hL : LedgerOk st) :
    (∀ (username : String) (folder : Option String) (items : List UploadItem),
      LedgerOk (upload_file username folder items st).1) ∧
    (∀ (username : String) (fid : Nat) (st' : St),
      delete_file username fid st = .ok st' → LedgerOk st') ∧
    (∀ ops : List Op, LedgerOk (runOps st ops)) := by
  refine ⟨fun username folder items =>
      ledger_upload_file username folder items st hwf hL,
    fun username fid st' hdel => ?_,
    fun ops => ledger_runOps ops st hwf hL⟩
  obtain ⟨file, hfind, _, rfl⟩ := delete_file_ok_inv hdel
  exact ledger_deletedState username fid file st hfind hwf hL

/-- C9: every record an upload inserts carries `is_duplicate` equal to the
prior-upload check's result; a non-blank supplied folder is stored trimmed
of surrounding whitespace, and an absent or blank (empty after trimming)
folder lands the record in the default `"Root"` group. -/
theorem inserted_record_fields (st st' : St) (username : String)
    (folder : Option String) (item : UploadItem)
    (hacc : uploadStep username folder st item = (st', true)) :
    ∃ r : FileRecord,
      st'.files = st.files ++ [r] ∧
      r.is_duplicate = hasPriorUpload st username (hashBytes item.content) ∧
      (∀ s : String, folder = some s → s ≠ "" → r.folder = some s.trim) ∧
      ((folder = none ∨ ∃ s : String, folder = some s ∧ s.trim = "") →
        displayGroup r = "Root") := by
  have hfields : st'.files = st.files ++ [insertedRecord username folder st item] := by
    cases hprior : hasPriorUpload st username (hashBytes item.content) with
    | true =>
      rw [uploadStep_accept_dup username folder st item hprior] at hacc
      injection hacc with h1 _
      rw [← h1]
    | false =>
      cases hq : (check_storage_quota username (item.content.length : Int) st).1 with
      | false =>
        rw [uploadStep_skip username folder st item hprior hq] at hacc
        injection hacc with _ h2
        cases h2
      | true =>
        rw [uploadStep_accept_new username folder st item hprior hq] at hacc
        injection hacc with h1 _
        rw [← h1]
  refine ⟨insertedRecord username folder st item, hfields, rfl, ?_, ?_⟩
  · intro s hs hne
    subst hs
    show (if s == "" then none else some s.trim) = some s.trim
    rw [if_neg (by simpa using hne)]
  · rintro (rfl | ⟨s, rfl, htrim⟩)
    · rfl
    · show displayGroup { insertedRecord username (some s) st item with
        folder := if s == "" then none else some s.trim } = "Root"
      by_cases hse : s = ""
      · rw [if_pos (by simpa using hse)]
        rfl
      · rw [if_neg (by simpa using hse)]
        show (if s.trim == "" then "Root" else s.trim) = "Root"
        rw [if_pos (by simpa using htrim)]

/-- C10: a download request for an existing record by an authenticated user
who is neither the uploader nor the target of a private grant for that
record fails with `forbidden` and no bytes are served; the uploader, and
any user the record was shared with, receives the file when its blob is
present. -/
theorem download_authorization (st : St) (username : String) (fid : Nat)
    (r : FileRecord)
    (hfind : st.files.find? (fun f => f.id == fid) = some r) :
    ((r.uploader ≠ username ∧
        ∀ s ∈ st.shared_files, ¬(s.file_id = fid ∧ s.shared_with = username)) →
      download_file username fid st = .error .forbidden) ∧
    ((r.uploader = username ∨
        ∃ s ∈ st.shared_files, s.file_id = fid ∧ s.shared_with = username) →
      r.file_hash ∈ st.blobs →
      download_file username fid st = .ok (r.file_hash, r.filename)) := by
  constructor
  · rintro ⟨hne, hnoshare⟩
    have hfnone : st.shared_files.find?
        (fun s => s.file_id == fid && s.shared_with == username) = none := by
      rw [List.find?_eq_none]
      intro s hs
      have := hnoshare s hs
      simp only [Bool.and_eq_true, beq_iff_eq]
      tauto
    simp [download_file, hfind, hfnone, hne]
  · rintro hok hblob
    have hcond : (r.uploader != username
        && (st.shared_files.find?
            (fun s => s.file_id == fid && s.shared_with == username)).isNone)
        = false := by
      rcases hok with heq | ⟨s, hs, h1, h2⟩
      · simp [heq]
      · have : (st.shared_files.find?
            (fun s => s.file_id == fid && s.shared_with == username)).isSome := by
          rw [List.find?_isSome]
          exact ⟨s, hs, by simp [h1, h2]⟩
        simp [Option.isNone_eq_false_iff, this]
    have hcont : st.blobs.contains r.file_hash = true := by
      simpa using hblob
    simp only [download_file, hfind, hcond, hcont]
    simp [hblob]

/-- C1: a user uploading the same content twice ends up with exactly one
non-duplicate record and one duplicate record for that (user, hash) pair,
exactly one blob stored under the content's hash, and `storage_used`
increased by the content's size exactly once. -/
theorem upload_twice_dedup (st : St) (username : String)
    (folder1 folder2 : Option String) (item : UploadItem) (u : User)
    (hwf : WF st)
    (hu : findU st.users username = some u)
    (hq : u.storage_used + (item.content.length : Int) ≤ u.storage_quota)
    (hprior : hasPriorUpload st username (hashBytes item.content) = false) :
    let st1 := (upload_file username folder1 [item] st).1
    let st2 := (upload_file username folder2 [item] st1).1
    (st2.files.filter (fun f =>
      f.uploader == username && f.file_hash == hashBytes item.content
        && !f.is_duplicate)).length = 1 ∧
    (st2.files.filter (fun f =>
      f.uploader == username && f.file_hash == hashBytes item.content
        && f.is_duplicate)).length = 1 ∧
    countBlob st2.blobs (hashBytes item.content) = 1 ∧
    findU st2.users username =
      some { u with
        storage_used := u.storage_used + (item.content.length : Int) } := by
  intro st1 st2
  have hq1 : (check_storage_quota username (item.content.length : Int) st).1
      = true := by
    rw [check_storage_quota_ok hu hq]
  have hst1 : st1 = { st with
      blobs := blobsAfter st (hashBytes item.content)
      files := st.files ++ [insertedRecord username folder1 st item]
      users := updateUser username (chargeFn (item.content.length : Int)) st.users
      next_id := st.next_id + 1 } := by
    show (upload_file username folder1 [item] st).1 = _
    rw [upload_file_single, uploadStep_accept_new username folder1 st item hprior hq1]
  have hfiles1 : st1.files = st.files ++ [insertedRecord username folder1 st item] := by
    rw [hst1]
  have hblobs1 : st1.blobs = blobsAfter st (hashBytes item.content) := by
    rw [hst1]
  have husers1 : st1.users =
      updateUser username (chargeFn (item.content.length : Int)) st.users := by
    rw [hst1]
  have hprior2 : hasPriorUpload st1 username (hashBytes item.content) = true := by
    unfold hasPriorUpload
    rw [hfiles1, List.any_append]
    simp [insertedRecord]
  have hst2 : st2 = { st1 with
      blobs := blobsAfter st1 (hashBytes item.content)
      files := st1.files ++ [insertedRecord username folder2 st1 item]
      next_id := st1.next_id + 1 } := by
    show (upload_file username folder2 [item] st1).1 = _
    rw [upload_file_single, uploadStep_accept_dup username folder2 st1 item hprior2]
  have hfiles2 : st2.files =
      (st.files ++ [insertedRecord username folder1 st item])
        ++ [insertedRecord username folder2 st1 item] := by
    rw [hst2]
    show st1.files ++ _ = _
    rw [hfiles1]
  have hmem1 : hashBytes item.content ∈ st1.blobs := by
    rw [hblobs1]
    exact mem_blobsAfter_self st (hashBytes item.content)
  have hblobs2 : st2.blobs = blobsAfter st (hashBytes item.content) := by
    rw [hst2]
    show blobsAfter st1 (hashBytes item.content) = _
    rw [blobsAfter_of_mem st1 _ hmem1, hblobs1]
  have husers2 : st2.users =
      updateUser username (chargeFn (item.content.length : Int)) st.users := by
    rw [hst2]
    show st1.users = _
    rw [husers1]
  refine ⟨?_, ?_, ?_, ?_⟩
  · have hnil := no_prior_filter_nil st username (hashBytes item.content)
      (fun f => !f.is_duplicate) hprior
    rw [hfiles2, List.filter_append, List.filter_append, hnil]
    simp [insertedRecord, hprior, hprior2]
  · have hnil := no_prior_filter_nil st username (hashBytes item.content)
      (fun f => f.is_duplicate) hprior
    rw [hfiles2, List.filter_append, List.filter_append, hnil]
    simp [insertedRecord, hprior, hprior2]
  · rw [hblobs2]
    exact countBlob_blobsAfter_self st _ hwf.2.2.2.2
  · rw [husers2,
      findU_updateUser_self username (chargeFn (item.content.length : Int))
        (fun u => rfl) st.users, hu]
    rfl

/-- C2: two distinct users each uploading identical content each get a
non-duplicate record and are each charged the content's size against their
own quota, while exactly one blob for the hash exists on the medium — the
second user's upload leaves the blob directory untouched. -/
theorem cross_user_dedup (st : St) (u1n u2n : String)
    (folder1 folder2 : Option String) (item : UploadItem) (u1 u2 : User)
    (hwf : WF st) (hne : u1n ≠ u2n)
    (hu1 : findU st.users u1n = some u1)
    (hu2 : findU st.users u2n = some u2)
    (hq1 : u1.storage_used + (item.content.length : Int) ≤ u1.storage_quota)
    (hq2 : u2.storage_used + (item.content.length : Int) ≤ u2.storage_quota)
    (hp1 : hasPriorUpload st u1n (hashBytes item.content) = false)
    (hp2 : hasPriorUpload st u2n (hashBytes item.content) = false) :
    let st1 := (upload_file u1n folder1 [item] st).1
    let st2 := (upload_file u2n folder2 [item] st1).1
    (st2.files.filter (fun f =>
      f.uploader == u1n && f.file_hash == hashBytes item.content
        && !f.is_duplicate)).length = 1 ∧
    (st2.files.filter (fun f =>
      f.uploader == u2n && f.file_hash == hashBytes item.content
        && !f.is_duplicate)).length = 1 ∧
    countBlob st2.blobs (hashBytes item.content) = 1 ∧
    st2.blobs = st1.blobs ∧
    findU st2.users u1n =
      some { u1 with
        storage_used := u1.storage_used + (item.content.length : Int) } ∧
    findU st2.users u2n =
      some { u2 with
        storage_used := u2.storage_used + (item.content.length : Int) } := by
  intro st1 st2
  have hcq1 : (check_storage_quota u1n (item.content.length : Int) st).1
      = true := by
    rw [check_storage_quota_ok hu1 hq1]
  have hst1 : st1 = { st with
      blobs := blobsAfter st (hashBytes item.content)
      files := st.files ++ [insertedRecord u1n folder1 st item]
      users := updateUser u1n (chargeFn (item.content.length : Int)) st.users
      next_id := st.next_id + 1 } := by
    show (upload_file u1n folder1 [item] st).1 = _
    rw [upload_file_single, uploadStep_accept_new u1n folder1 st item hp1 hcq1]
  have hfiles1 : st1.files = st.files ++ [insertedRecord u1n folder1 st item] := by
    rw [hst1]
  have hblobs1 : st1.blobs = blobsAfter st (hashBytes item.content) := by
    rw [hst1]
  have husers1 : st1.users =
      updateUser u1n (chargeFn (item.content.length : Int)) st.users := by
    rw [hst1]
  have hp2' : hasPriorUpload st1 u2n (hashBytes item.content) = false := by
    unfold hasPriorUpload
    rw [hfiles1, List.any_append]
    unfold hasPriorUpload at hp2
    rw [hp2]
    simp [insertedRecord]
    intro hc
    exact absurd hc hne
  have hu2' : findU st1.users u2n = some u2 := by
    rw [husers1,
      findU_updateUser_other u2n u1n (fun hc => hne hc.symm)
        (chargeFn (item.content.length : Int)) (fun u => rfl) st.users]
    exact hu2
  have hcq2 : (check_storage_quota u2n (item.content.length : Int) st1).1
      = true := by
    rw [check_storage_quota_ok hu2' hq2]
  have hst2 : st2 = { st1 with
      blobs := blobsAfter st1 (hashBytes item.content)
      files := st1.files ++ [insertedRecord u2n folder2 st1 item]
      users := updateUser u2n (chargeFn (item.content.length : Int)) st1.users
      next_id := st1.next_id + 1 } := by
    show (upload_file u2n folder2 [item] st1).1 = _
    rw [upload_file_single, uploadStep_accept_new u2n folder2 st1 item hp2' hcq2]
  have hfiles2 : st2.files =
      (st.files ++ [insertedRecord u1n folder1 st item])
        ++ [insertedRecord u2n folder2 st1 item] := by
    rw [hst2]
    show st1.files ++ _ = _
    rw [hfiles1]
  have hmem1 : hashBytes item.content ∈ st1.blobs := by
    rw [hblobs1]
    exact mem_blobsAfter_self st (hashBytes item.content)
  have hblobs2 : st2.blobs = st1.blobs := by
    rw [hst2]
    show blobsAfter st1 (hashBytes item.content) = _
    rw [blobsAfter_of_mem st1 _ hmem1]
  have husers2 : st2.users =
      updateUser u2n (chargeFn (item.content.length : Int)) st1.users := by
    rw [hst2]
  refine ⟨?_, ?_, ?_, hblobs2, ?_, ?_⟩
  · have hnil := no_prior_filter_nil st u1n (hashBytes item.content)
      (fun f => !f.is_duplicate) hp1
    rw [hfiles2, List.filter_append, List.filter_append, hnil]
    have hcross : (u2n == u1n) = false := by
      simp only [beq_eq_false_iff_ne, ne_eq]
      exact fun hc => hne hc.symm
    simp [insertedRecord, hp1, hcross]
  · have hnil := no_prior_filter_nil st u2n (hashBytes item.content)
      (fun f => !f.is_duplicate) hp2
    rw [hfiles2, List.filter_append, List.filter_append, hnil]
    have hcross : (u1n == u2n) = false := by
      simpa only [beq_eq_false_iff_ne, ne_eq] using hne
    simp [insertedRecord, hp2', hcross]
  · rw [hblobs2, hblobs1]
    exact countBlob_blobsAfter_self st _ hwf.2.2.2.2
  · rw [husers2,
      findU_updateUser_other u1n u2n hne
        (chargeFn (item.content.length : Int)) (fun u => rfl) st1.users,
      husers1,
      findU_updateUser_self u1n (chargeFn (item.content.length : Int))
        (fun u => rfl) st.users, hu1]
    rfl
  · rw [husers2,
      findU_updateUser_self u2n (chargeFn (item.content.length : Int))
        (fun u => rfl) st1.users, hu2']
    rfl

/-- Witness for C1: the double-upload theorem applies at a concrete state. -/
theorem upload_twice_dedup_witness :
    (WF wSt ∧
      findU wSt.users "alice" = some wAlice ∧
      wAlice.storage_used + (wItem.content.length : Int) ≤ wAlice.storage_quota ∧
      hasPriorUpload wSt "alice" (hashBytes wItem.content) = false) ∧
    (let st1 := (upload_file "alice" none [wItem] wSt).1
     let st2 := (upload_file "alice" none [wItem] st1).1
     (st2.files.filter (fun f =>
       f.uploader == "alice" && f.file_hash == hashBytes wItem.content
         && !f.is_duplicate)).length = 1 ∧
     (st2.files.filter (fun f =>
       f.uploader == "alice" && f.file_hash == hashBytes wItem.content
         && f.is_duplicate)).length = 1 ∧
     countBlob st2.blobs (hashBytes wItem.content) = 1 ∧
     findU st2.users "alice" =
       some { wAlice with
         storage_used := wAlice.storage_used + (wItem.content.length : Int) }) :=
  ⟨⟨by unfold WF; decide, by decide, by decide, by decide⟩,
    upload_twice_dedup wSt "alice" none none wItem wAlice
      (by unfold WF; decide) (by decide) (by decide) (by decide)⟩

/-- Witness for C2: the cross-user dedup theorem applies at a concrete
state with two distinct users. -/
theorem cross_user_dedup_witness :
    (WF wSt ∧ "alice" ≠ "bob" ∧
      findU wSt.users "alice" = some wAlice ∧
      findU wSt.users "bob" = some wBob ∧
      wAlice.storage_used + (wItem.content.length : Int) ≤ wAlice.storage_quota ∧
      wBob.storage_used + (wItem.content.length : Int) ≤ wBob.storage_quota ∧
      hasPriorUpload wSt "alice" (hashBytes wItem.content) = false ∧
      hasPriorUpload wSt "bob" (hashBytes wItem.content) = false) ∧
    (let st1 := (upload_file "alice" none [wItem] wSt).1
     let st2 := (upload_file "bob" none [wItem] st1).1
     (st2.files.filter (fun f =>
       f.uploader == "alice" && f.file_hash == hashBytes wItem.content
         && !f.is_duplicate)).length = 1 ∧
     (st2.files.filter (fun f =>
       f.uploader == "bob" && f.file_hash == hashBytes wItem.content
         && !f.is_duplicate)).length = 1 ∧
     countBlob st2.blobs (hashBytes wItem.content) = 1 ∧
     st2.blobs = st1.blobs ∧
     findU st2.users "alice" =
       some { wAlice with
         storage_used := wAlice.storage_used + (wItem.content.length : Int) } ∧
     findU st2.users "bob" =
       some { wBob with
         storage_used := wBob.storage_used + (wItem.content.length : Int) }) :=
  ⟨⟨by unfold WF; decide, by decide, by decide, by decide, by decide, by decide,
      by decide, by decide⟩,
    cross_user_dedup wSt "alice" "bob" none none wItem wAlice wBob
      (by unfold WF; decide) (by decide) (by decide) (by decide) (by decide)
      (by decide) (by decide) (by decide)⟩

/-- Witness for C3: a four-byte item against a 3-byte quota is skipped and
the rest of the batch proceeds, at a concrete state. -/
theorem quota_skip_is_isolated_witness :
    (findU wStTight.users "carol" = some wCarol ∧
      hasPriorUpload wStTight "carol" (hashBytes wItemBig.content) = false ∧
      wCarol.storage_quota < wCarol.storage_used + (wItemBig.content.length : Int)) ∧
    (uploadStep "carol" none wStTight wItemBig = (wStTight, false) ∧
     upload_file "carol" none (wItemBig :: [wItemSmall]) wStTight =
       ((upload_file "carol" none [wItemSmall] wStTight).1,
         (upload_file "carol" none [wItemSmall] wStTight).2.1,
         (upload_file "carol" none [wItemSmall] wStTight).2.2 + 1)) :=
  ⟨⟨by decide, by decide, by decide⟩,
    quota_skip_is_isolated wStTight "carol" none wItemBig [wItemSmall] wCarol
      (by decide) (by decide) (by decide)⟩

/-- Witness for C4: the tryCharge specification applies at a concrete
state. -/
theorem tryCharge_spec_witness :
    (findU wSt.users "alice" = some wAlice) ∧
    (((tryCharge "alice" 5 wSt).1.1 = true ↔
        wAlice.storage_used + 5 ≤ wAlice.storage_quota) ∧
      ((tryCharge "alice" 5 wSt).1.1 = true →
        findU (tryCharge "alice" 5 wSt).2.users "alice" =
          some { wAlice with storage_used := wAlice.storage_used + 5 }) ∧
      ((tryCharge "alice" 5 wSt).1.1 = false →
        (tryCharge "alice" 5 wSt).2 = wSt ∧
        (tryCharge "alice" 5 wSt).1.2 =
          "Storage quota exceeded! You have " ++ formatMB wAlice.storage_used
            ++ " MB / " ++ formatMB wAlice.storage_quota ++ " MB used.")) :=
  ⟨by decide, tryCharge_spec wSt "alice" 5 wAlice (by decide)⟩

/-- Witness for C5: deleting alice's original while her duplicate exists is
refused at a concrete state. -/
theorem delete_gate_refuses_witness :
    (wStFiles.files.find? (fun f => f.id == 0 && f.uploader == "alice")
        = some wRecOrig ∧
      wRecOrig.is_duplicate = false ∧
      wRecDup ∈ wStFiles.files ∧
      wRecDup.uploader = "alice" ∧
      wRecDup.file_hash = wRecOrig.file_hash ∧
      wRecDup.is_duplicate = true) ∧
    (delete_file "alice" 0 wStFiles = .error .dependentDuplicatesExist ∧
      DeleteErr.dependentDuplicatesExist ≠ DeleteErr.notFound ∧
      applyOp wStFiles (Op.delete "alice" 0) = wStFiles) :=
  ⟨⟨by decide, by decide, by decide, by decide, by decide, by decide⟩,
    delete_gate_refuses wStFiles "alice" 0 wRecOrig wRecDup (by decide)
      (by decide) (by decide) (by decide) (by decide) (by decide)⟩

/-- Witness for C6: deleting the last record referencing a hash removes its
blob, at a concrete state. -/
theorem blob_reclaimed_iff_orphaned_witness :
    (wStOne.files.find? (fun f => f.id == 0 && f.uploader == "alice")
        = some wRecOrig ∧
      delete_file "alice" 0 wStOne = .ok (deletedState "alice" 0 wRecOrig wStOne) ∧
      wRecOrig.file_hash ∈ wStOne.blobs) ∧
    (wRecOrig.file_hash ∈ (deletedState "alice" 0 wRecOrig wStOne).blobs ↔
      0 < countReferences (deletedState "alice" 0 wRecOrig wStOne).files
        wRecOrig.file_hash) :=
  ⟨⟨by decide, by rfl, by decide⟩,
    blob_reclaimed_iff_orphaned wStOne (deletedState "alice" 0 wRecOrig wStOne)
      "alice" 0 wRecOrig (by decide) (by rfl) (by decide)⟩

/-- Witness for C7: the nonnegativity theorem applies at a concrete
state. -/
theorem storage_used_never_negative_witness :
    UsageNonneg wSt ∧
    ((∀ ops : List Op, UsageNonneg (runOps wSt ops)) ∧
      (∀ (bytes : Int) (u : User), 0 ≤ (refundFn bytes u).storage_used)) :=
  ⟨by unfold UsageNonneg; decide,
    storage_used_never_negative wSt (by unfold UsageNonneg; decide)⟩

/-- Witness for C8: the ledger-invariant preservation theorem applies at a
concrete state that satisfies the invariant. -/
theorem ledger_invariant_preserved_witness :
    (WF wStFiles ∧ LedgerOk wStFiles) ∧
    ((∀ (username : String) (folder : Option String) (items : List UploadItem),
        LedgerOk (upload_file username folder items wStFiles).1) ∧
      (∀ (username : String) (fid : Nat) (st' : St),
        delete_file username fid wStFiles = .ok st' → LedgerOk st') ∧
      (∀ ops : List Op, LedgerOk (runOps wStFiles ops))) :=
  ⟨⟨by unfold WF; decide, by unfold LedgerOk; decide⟩,
    ledger_invariant_preserved wStFiles (by unfold WF; decide)
      (by unfold LedgerOk; decide)⟩

/-- Witness for C9: the record inserted by an accepted upload has the
specified duplicate flag and folder handling, at a concrete state. -/
theorem inserted_record_fields_witness :
    (uploadStep "alice" none wSt wItem =
      ((uploadStep "alice" none wSt wItem).1, true)) ∧
    (∃ r : FileRecord,
      ((uploadStep "alice" none wSt wItem).1).files = wSt.files ++ [r] ∧
      r.is_duplicate = hasPriorUpload wSt "alice" (hashBytes wItem.content) ∧
      (∀ s : String, (none : Option String) = some s → s ≠ "" →
        r.folder = some s.trim) ∧
      (((none : Option String) = none ∨
          ∃ s : String, (none : Option String) = some s ∧ s.trim = "") →
        displayGroup r = "Root")) :=
  ⟨by decide,
    inserted_record_fields wSt ((uploadStep "alice" none wSt wItem).1)
      "alice" none wItem (by decide)⟩

/-- Witness for C10: the download authorization theorem applies at a
concrete state, for a requester who is neither owner nor grantee. -/
theorem download_authorization_witness :
    (wStOne.files.find? (fun f => f.id == 0) = some wRecOrig) ∧
    (((wRecOrig.uploader ≠ "eve" ∧
        ∀ s ∈ wStOne.shared_files, ¬(s.file_id = 0 ∧ s.shared_with = "eve")) →
      download_file "eve" 0 wStOne = .error .forbidden) ∧
    ((wRecOrig.uploader = "eve" ∨
        ∃ s ∈ wStOne.shared_files, s.file_id = 0 ∧ s.shared_with = "eve") →
      wRecOrig.file_hash ∈ wStOne.blobs →
      download_file "eve" 0 wStOne = .ok (wRecOrig.file_hash, wRecOrig.filename))) :=
  ⟨by decide, download_authorization wStOne "eve" 0 wRecOrig (by decide)⟩

end VinnoDrive
